/-
Verification of the playlist-refresh program `refresh_playlist.py`.

The program is shallowly embedded: Python strings become `List Char`,
dictionaries with optional keys become structures with `Option` fields,
and the effectful part of `main` becomes a pure function producing the
list of mutating remote calls (`Effect`) it would issue, in order.
-/
import Mathlib

set_option linter.unusedVariables false
set_option linter.unnecessarySimpa false
set_option maxRecDepth 4000

/-- Python strings are modelled as lists of characters. -/
abbrev Str := List Char

/-- `DESC_TAG_PREFIX = "autoclone_source="` (line 19 of the source). -/
def DESC_TAG_PREFIX : Str := "autoclone_source=".toList

/-- `ZERO_WIDTH_SPACE = "​"` (line 20 of the source). -/
def ZERO_WIDTH_SPACE : Char := Char.ofNat 0x200B

/-- The character class `[A-Za-z0-9]` of the marker regexp (line 98). -/
def isMarkerChar (c : Char) : Bool :=
  ('A' ≤ c && c ≤ 'Z') || ('a' ≤ c && c ≤ 'z') || ('0' ≤ c && c ≤ '9')

/-- One attempt of the regexp `autoclone_source=([A-Za-z0-9]\x7b22\x7d)` at a
fixed position: the literal must start here, followed by at least 22
characters of the class, of which the first 22 form the captured group. -/
def matchTagAt (xs : Str) : Option Str :=
  if DESC_TAG_PREFIX.isPrefixOf xs then
    let rest := xs.drop DESC_TAG_PREFIX.length
    if 22 ≤ rest.length && (rest.take 22).all isMarkerChar then
      some (rest.take 22)
    else none
  else none

/-- `extract_source_id_from_desc` (lines 96-99): `re.search` returns the
leftmost position at which the whole pattern matches, or `None`. -/
def extract_source_id_from_desc (desc : Str) : Option Str :=
  match desc with
  | [] => none
  | c :: rest =>
    match matchTagAt (c :: rest) with
    | some s => some s
    | none => extract_source_id_from_desc rest

/-- The `hidden_desc` written at creation time (line 166):
zero-width space, then `autoclone_source=`, then the source ID. -/
def tag_payload (source_id : Str) : Str :=
  ZERO_WIDTH_SPACE :: DESC_TAG_PREFIX ++ source_id

/-- A playlist object as returned by the library listing: `pl.get("id")`
and `pl.get("description")` may both be absent. -/
structure Playlist where
  pid : Option Str
  description : Option Str
deriving DecidableEq, Repr

/-- The body of the `find_clones` loop (lines 104-112) for one playlist:
skip a falsy id (`None` or empty), read the description with `or ""`,
and keep the id iff the extracted source equals the queried one. -/
def clone_entry (source_id : Str) (pl : Playlist) : Option Str :=
  match pl.pid with
  | none => none
  | some pid =>
    if pid == [] then none
    else if extract_source_id_from_desc (pl.description.getD []) == some source_id then
      some pid
    else none

/-- `find_clones` (lines 102-114): scan the library in order and collect
the ids of playlists whose description carries a marker for `source_id`. -/
def find_clones (lib : List Playlist) (source_id : Str) : List Str :=
  lib.filterMap (clone_entry source_id)

/-- `delete_old_clones_keep_newest` (lines 117-132): the ids unfollowed,
in order.  The located clones are filtered by `pid != source_id` and every
remaining one is unfollowed. -/
def delete_old_clones_keep_newest (lib : List Playlist) (source_id : Str) : List Str :=
  (find_clones lib source_id).filter (fun pid => pid != source_id)

/-- A track object inside a playlist item; `track.get("uri")` may be absent. -/
structure TrackObj where
  uri : Option Str
deriving DecidableEq, Repr

/-- An item of a playlist-items page; `item.get("track")` may be absent. -/
structure PlaylistItem where
  track : Option TrackObj
deriving DecidableEq, Repr

/-- The URI scheme prefix tested on line 80 of the source. -/
def TRACK_URI_PREFIX : Str := "spotify:track:".toList

/-- The inner `for item in results.get("items", [])` loop of
`get_all_track_uris` (lines 71-81): skip a falsy track object, skip a
falsy URI, keep URIs with the `spotify:track:` scheme, in order. -/
def page_track_uris : List PlaylistItem → List Str
  | [] => []
  | item :: rest =>
    match item.track with
    | none => page_track_uris rest
    | some t =>
      match t.uri with
      | none => page_track_uris rest
      | some uri =>
        if uri == [] then page_track_uris rest
        else if TRACK_URI_PREFIX.isPrefixOf uri then uri :: page_track_uris rest
        else page_track_uris rest

/-- `get_all_track_uris` (lines 66-85): the paginated listing is modelled
as the list of its pages, consumed in order by the `while results` loop. -/
def get_all_track_uris (pages : List (List PlaylistItem)) : List Str :=
  match pages with
  | [] => []
  | page :: rest => page_track_uris page ++ get_all_track_uris rest

/-- Python `range(s, e, 100)` (the loop header on line 180). -/
def pyRange100 (s e : Nat) : List Nat :=
  if s < e then s :: pyRange100 (s + 100) e else []
termination_by e - s
decreasing_by omega

/-- The batches produced by `for i in range(0, len(track_uris), 100)` with
slices `track_uris[i:i + 100]` (lines 180-181). -/
def add_batches (track_uris : List Str) : List (List Str) :=
  (pyRange100 0 track_uris.length).map (fun i => (track_uris.drop i).take 100)

/-- Host substring tested on line 52. -/
def OPEN_HOST : Str := "open.spotify.com".toList

/-- The path separator `"/playlist/"` used on lines 52-53. -/
def PLAYLIST_SEP : Str := "/playlist/".toList

/-- The URI prefix `"spotify:playlist:"` used on lines 57-58. -/
def SPOTIFY_URI_PREFIX : Str := "spotify:playlist:".toList

/-- Python `str.strip()`: drop leading and trailing whitespace. -/
def pyStrip (xs : Str) : Str :=
  ((xs.dropWhile Char.isWhitespace).reverse.dropWhile Char.isWhitespace).reverse

/-- The part of `xs` before the first occurrence of `sep`
(Python `xs.split(sep)[0]`; all of `xs` when `sep` does not occur). -/
def takeBeforeFirst (sep : Str) : Str → Str
  | [] => []
  | c :: rest =>
    if sep.isPrefixOf (c :: rest) then []
    else c :: takeBeforeFirst sep rest

/-- The part of `xs` after the first occurrence of `sep` (empty when `sep`
does not occur). -/
def afterFirst (sep : Str) : Str → Str
  | [] => []
  | c :: rest =>
    if sep.isPrefixOf (c :: rest) then (c :: rest).drop sep.length
    else afterFirst sep rest

/-- Python `xs.split(sep)[1]`: the segment between the first and second
non-overlapping occurrences of `sep`. -/
def pySplitGet1 (sep xs : Str) : Str :=
  takeBeforeFirst sep (afterFirst sep xs)

/-- Python substring containment `sep in xs`. -/
def containsSub (sep : Str) : Str → Bool
  | [] => sep.isEmpty
  | c :: rest => sep.isPrefixOf (c :: rest) || containsSub sep rest

/-- `normalize_playlist_id` (lines 49-60): strip, reduce a web URL to the
segment after `/playlist/` cut at `?` and `/`, then strip a
`spotify:playlist:` URI prefix. -/
def normalize_playlist_id (value : Str) : Str :=
  let v1 := pyStrip value
  let v2 :=
    if containsSub OPEN_HOST v1 && containsSub PLAYLIST_SEP v1 then
      takeBeforeFirst ['/'] (takeBeforeFirst ['?'] (pySplitGet1 PLAYLIST_SEP v1))
    else v1
  if SPOTIFY_URI_PREFIX.isPrefixOf v2 then pySplitGet1 SPOTIFY_URI_PREFIX v2 else v2

/-- One image variant returned by `sp.playlist_cover_image` (line 135). -/
structure CoverImage where
  url : Str
deriving DecidableEq, Repr

/-- The base64 alphabet, used by `base64.b64encode` on line 147. -/
def B64_ALPHABET : Str :=
  "ABCDEFGHIJKLMNOPQRSTUVWXYZabcdefghijklmnopqrstuvwxyz0123456789+/".toList

/-- Character of the base64 alphabet at index `n`. -/
def b64char (n : Nat) : Char := B64_ALPHABET.getD n '='

/-- `base64.b64encode` over a byte sequence (each byte a `Nat < 256`). -/
def b64encode : List Nat → Str
  | [] => []
  | [a] => [b64char (a / 4), b64char (a % 4 * 16), '=', '=']
  | [a, b] => [b64char (a / 4), b64char (a % 4 * 16 + b / 16), b64char (b % 16 * 4), '=']
  | a :: b :: c :: rest =>
    [b64char (a / 4), b64char (a % 4 * 16 + b / 16), b64char (b % 16 * 4 + c / 64),
      b64char (c % 64)] ++ b64encode rest

/-- A mutating remote call issued by the program, in the order issued. -/
inductive Effect where
  | unfollow (pid : Str)
  | createPlaylist (user_id name : Str) (public : Bool) (description : Str)
  | addItems (pid : Str) (uris : List Str)
  | uploadCover (pid : Str) (payload : Str)
deriving DecidableEq, Repr

/-- `copy_playlist_cover` (lines 134-149): with no image variants the
function returns without calling anything; otherwise the first variant's
URL is downloaded (`download` models `requests.get(...).content`), the
bytes are base64-encoded and uploaded to `target_id`.  There is no size
check anywhere in the function. -/
def copy_playlist_cover (images : List CoverImage) (download : Str → List Nat)
    (target_id : Str) : List Effect :=
  match images with
  | [] => []
  | img :: _ => [Effect.uploadCover target_id (b64encode (download img.url))]

/-- The mutating calls of one run of `main` (lines 154-196) in which every
required remote call succeeds.  `lib` is the library listing seen by the
scan, `pages` the source playlist's item pages, `new_id` the id returned
by `user_playlist_create`, and `cover_run` the calls actually issued by
the `try copy_playlist_cover ... except` block (a prefix of the block's
full call list when the block raises; the exception is caught on line 177
and the run continues). -/
def main_trace (user_id source_id source_name : Str) (lib : List Playlist)
    (pages : List (List PlaylistItem)) (new_id : Str) (cover_run : List Effect) :
    List Effect :=
  (delete_old_clones_keep_newest lib source_id).map Effect.unfollow
    ++ [Effect.createPlaylist user_id source_name false (tag_payload source_id)]
    ++ cover_run
    ++ (add_batches (get_all_track_uris pages)).map (fun b => Effect.addItems new_id b)

/-- Proof-side view of the batching loop: peel 100 items at a time. -/
def chunk100 (l : List Str) : List (List Str) :=
  if h : l = [] then [] else l.take 100 :: chunk100 (l.drop 100)
termination_by l.length
decreasing_by
  simp [List.length_drop]
  cases l with
  | nil => exact absurd rfl h
  | cons x xs => simp

/-- Spec-level view of one playlist item: the playable track URI it
contributes to the fetched sequence, if any. -/
def playableUri (item : PlaylistItem) : Option Str :=
  match item.track with
  | none => none
  | some t =>
    match t.uri with
    | none => none
    | some uri =>
      if uri != [] && TRACK_URI_PREFIX.isPrefixOf uri then some uri else none

example : extract_source_id_from_desc (tag_payload "aaaaAAAA0000bbbbBBBB11".toList) =
    some "aaaaAAAA0000bbbbBBBB11".toList := by decide

example : extract_source_id_from_desc (tag_payload "abc".toList) = none := by decide

example :
    find_clones [⟨some "p1".toList, some (tag_payload "aaaaAAAA0000bbbbBBBB11".toList)⟩]
      "aaaaAAAA0000bbbbBBBB11".toList = ["p1".toList] := by decide

example : normalize_playlist_id "  abc12  ".toList = "abc12".toList := by decide

example : normalize_playlist_id "https://open.spotify.com/playlist/abc12?si=77".toList =
    "abc12".toList := by decide

example : normalize_playlist_id "https://open.spotify.com/playlist/abc12/tracks".toList =
    "abc12".toList := by decide

example : normalize_playlist_id "spotify:playlist:abc12".toList = "abc12".toList := by decide

example : (add_batches (List.replicate 250 ("u".toList))).length = 3 := by
  simp [add_batches, pyRange100]

example : b64encode [77, 97, 110] = "TWFu".toList := by decide

example : b64encode [77, 97] = "TWE=".toList := by decide

/-! ### Character and substring helper lemmas -/

theorem markerChar_ne {c : Char} (d : Char) (hc : isMarkerChar c = true)
    (hd : isMarkerChar d = false) : c ≠ d := by
  intro h
  rw [h, hd] at hc
  cases hc

theorem markerChar_not_ws {c : Char} (hc : isMarkerChar c = true) :
    c.isWhitespace = false := by
  have h1 : c ≠ ' ' := markerChar_ne _ hc (by decide)
  have h2 : c ≠ '\t' := markerChar_ne _ hc (by decide)
  have h3 : c ≠ '\r' := markerChar_ne _ hc (by decide)
  have h4 : c ≠ '\n' := markerChar_ne _ hc (by decide)
  simp [Char.isWhitespace, h1, h2, h3, h4]

theorem isPrefixOf_subset {sep xs : Str} (h : sep.isPrefixOf xs = true) : sep ⊆ xs :=
  (List.isPrefixOf_iff_prefix.mp h).subset

theorem not_isPrefixOf_of_missing {sep xs : Str} (c : Char) (hc : c ∈ sep)
    (hx : ∀ d ∈ xs, d ≠ c) : sep.isPrefixOf xs = false := by
  cases h : sep.isPrefixOf xs with
  | false => rfl
  | true => exact absurd rfl (hx c (isPrefixOf_subset h hc))

theorem containsSub_false {sep xs : Str} (c : Char) (hc : c ∈ sep)
    (hx : ∀ d ∈ xs, d ≠ c) : containsSub sep xs = false := by
  induction xs with
  | nil =>
    cases sep with
    | nil => cases hc
    | cons s sep => rfl
  | cons x xs ih =>
    have h1 : sep.isPrefixOf (x :: xs) = false :=
      not_isPrefixOf_of_missing c hc hx
    have h2 := ih (fun d hd => hx d (List.mem_cons_of_mem x hd))
    simp [containsSub, h1, h2]

theorem containsSub_of_prefix {sep xs : Str} (h : sep.isPrefixOf xs = true) :
    containsSub sep xs = true := by
  cases xs with
  | nil =>
    cases sep with
    | nil => rfl
    | cons s sep => simp [List.isPrefixOf] at h
  | cons x xs => simp [containsSub, h]

theorem containsSub_cons {sep xs : Str} (c : Char) (h : containsSub sep xs = true) :
    containsSub sep (c :: xs) = true := by
  simp [containsSub, h]

theorem containsSub_construct (pre post : Str) {sep : Str} :
    containsSub sep (pre ++ sep ++ post) = true := by
  induction pre with
  | nil =>
    refine containsSub_of_prefix (List.isPrefixOf_iff_prefix.mpr ?_)
    simpa using List.prefix_append sep post
  | cons x pre ih =>
    show containsSub sep (x :: (pre ++ sep ++ post)) = true
    exact containsSub_cons x ih

theorem takeBeforeFirst_missing {sep xs : Str} (c : Char) (hc : c ∈ sep)
    (hx : ∀ d ∈ xs, d ≠ c) : takeBeforeFirst sep xs = xs := by
  induction xs with
  | nil => rfl
  | cons x xs ih =>
    have h1 : sep.isPrefixOf (x :: xs) = false :=
      not_isPrefixOf_of_missing c hc hx
    have h2 := ih (fun d hd => hx d (List.mem_cons_of_mem x hd))
    simp [takeBeforeFirst, h1, h2]

theorem takeBeforeFirst_append {s : Char} {s' xs ys : Str}
    (hx : ∀ d ∈ xs, d ≠ s) :
    takeBeforeFirst (s :: s') (xs ++ ys) = xs ++ takeBeforeFirst (s :: s') ys := by
  induction xs with
  | nil => rfl
  | cons x xs ih =>
    have h1 : (s :: s').isPrefixOf (x :: (xs ++ ys)) = false := by
      have hxs : x ≠ s := hx x (List.mem_cons_self x xs)
      simp [List.isPrefixOf]
      intro h
      exact absurd h.symm hxs
    have h2 := ih (fun d hd => hx d (List.mem_cons_of_mem x hd))
    simp [takeBeforeFirst, h1, h2]

theorem takeBeforeFirst_isPrefix (sep xs : Str) : takeBeforeFirst sep xs <+: xs := by
  induction xs with
  | nil => simp [takeBeforeFirst]
  | cons x xs ih =>
    by_cases h : sep.isPrefixOf (x :: xs) = true
    · simp [takeBeforeFirst, h]
    · simp only [Bool.not_eq_true] at h
      simpa [takeBeforeFirst, h] using ih

theorem afterFirst_self {sep : Str} (hsep : sep ≠ []) (t : Str) :
    afterFirst sep (sep ++ t) = t := by
  cases sep with
  | nil => exact absurd rfl hsep
  | cons s s' =>
    have h1 : (s :: s').isPrefixOf (s :: (s' ++ t)) = true := by
      have h := List.isPrefixOf_iff_prefix.mpr (List.prefix_append (s :: s') t)
      simpa using h
    show afterFirst (s :: s') (s :: (s' ++ t)) = t
    simp [afterFirst, h1, List.drop_left]

theorem isPrefixOf_append_of_le {sep a b : Str} (h : sep.length ≤ a.length) :
    sep.isPrefixOf (a ++ b) = sep.isPrefixOf a := by
  induction sep generalizing a with
  | nil => simp [List.isPrefixOf]
  | cons s sep ih =>
    cases a with
    | nil => simp at h
    | cons x a =>
      simp only [List.length_cons, Nat.add_le_add_iff_right] at h
      simp [List.isPrefixOf, ih h]

theorem afterFirst_boundary {sep : Str} (hsep : sep ≠ []) (xs t : Str)
    (h : ∀ i < xs.length, sep.isPrefixOf ((xs ++ sep).drop i) = false) :
    afterFirst sep (xs ++ (sep ++ t)) = t := by
  induction xs with
  | nil => simpa using afterFirst_self hsep t
  | cons c xs ih =>
    have h0 : sep.isPrefixOf (c :: (xs ++ (sep ++ t))) = false := by
      have hlen : sep.length ≤ (c :: (xs ++ sep)).length := by
        simp [List.length_append]
        omega
      have := h 0 (by simp)
      simp only [List.drop_zero] at this
      calc sep.isPrefixOf (c :: (xs ++ (sep ++ t)))
          = sep.isPrefixOf ((c :: (xs ++ sep)) ++ t) := by
            simp [List.append_assoc]
        _ = sep.isPrefixOf (c :: (xs ++ sep)) := isPrefixOf_append_of_le hlen
        _ = false := this
    have hshift : ∀ i < xs.length, sep.isPrefixOf ((xs ++ sep).drop i) = false := by
      intro i hi
      have := h (i + 1) (by simp; omega)
      simpa using this
    show afterFirst sep (c :: (xs ++ (sep ++ t))) = t
    simp only [afterFirst, h0, Bool.false_eq_true, if_false]
    exact ih hshift

/-! ### Extractor and locator helper lemmas -/

theorem matchTagAt_none_of_not_prefix {xs : Str}
    (h : DESC_TAG_PREFIX.isPrefixOf xs = false) : matchTagAt xs = none := by
  simp [matchTagAt, h]

theorem matchTagAt_tag {sid post : Str} (h22 : sid.length = 22)
    (hal : sid.all isMarkerChar = true) :
    matchTagAt (DESC_TAG_PREFIX ++ (sid ++ post)) = some sid := by
  have hpre : DESC_TAG_PREFIX.isPrefixOf (DESC_TAG_PREFIX ++ (sid ++ post)) = true :=
    List.isPrefixOf_iff_prefix.mpr (List.prefix_append _ _)
  have hdrop : (DESC_TAG_PREFIX ++ (sid ++ post)).drop DESC_TAG_PREFIX.length =
      sid ++ post := List.drop_left _ _
  have htake : (sid ++ post).take 22 = sid := List.take_left' h22
  simp [matchTagAt, hpre, hdrop, htake, hal, List.length_append]
  omega

theorem extract_cons_of_match {x : Char} {xs : Str} {s : Str}
    (h : matchTagAt (x :: xs) = some s) :
    extract_source_id_from_desc (x :: xs) = some s := by
  simp [extract_source_id_from_desc, h]

theorem extract_append_none {xs ys : Str}
    (h : ∀ i < xs.length, matchTagAt ((xs ++ ys).drop i) = none) :
    extract_source_id_from_desc (xs ++ ys) = extract_source_id_from_desc ys := by
  induction xs with
  | nil => rfl
  | cons c xs ih =>
    have h0 : matchTagAt (c :: (xs ++ ys)) = none := by
      have := h 0 (by simp)
      simpa using this
    have hshift : ∀ i < xs.length, matchTagAt ((xs ++ ys).drop i) = none := by
      intro i hi
      have := h (i + 1) (by simp; omega)
      simpa using this
    show extract_source_id_from_desc (c :: (xs ++ ys)) = extract_source_id_from_desc ys
    simp only [extract_source_id_from_desc, h0]
    exact ih hshift

theorem extract_of_marker {pre sid post : Str} (h22 : sid.length = 22)
    (hal : sid.all isMarkerChar = true)
    (hpre : ∀ i ≤ pre.length,
      DESC_TAG_PREFIX.isPrefixOf ((pre ++ tag_payload sid ++ post).drop i) = false) :
    extract_source_id_from_desc (pre ++ tag_payload sid ++ post) = some sid := by
  have hshape : pre ++ tag_payload sid ++ post =
      (pre ++ [ZERO_WIDTH_SPACE]) ++ (DESC_TAG_PREFIX ++ (sid ++ post)) := by
    simp [tag_payload, List.append_assoc]
  rw [hshape]
  have hnone : ∀ i < (pre ++ [ZERO_WIDTH_SPACE]).length,
      matchTagAt (((pre ++ [ZERO_WIDTH_SPACE]) ++ (DESC_TAG_PREFIX ++ (sid ++ post))).drop i)
        = none := by
    intro i hi
    apply matchTagAt_none_of_not_prefix
    have hi' : i ≤ pre.length := by
      simpa using Nat.lt_succ_iff.mp (by simpa using hi)
    have := hpre i hi'
    rw [hshape] at this
    exact this
  rw [extract_append_none hnone]
  have hmatch : matchTagAt (DESC_TAG_PREFIX ++ (sid ++ post)) = some sid :=
    matchTagAt_tag h22 hal
  cases hd : DESC_TAG_PREFIX ++ (sid ++ post) with
  | nil =>
    exfalso
    have : DESC_TAG_PREFIX = [] := List.append_eq_nil.mp hd |>.1
    cases this
  | cons x xs =>
    rw [hd] at hmatch
    exact extract_cons_of_match hmatch

theorem extract_some_shape {desc s : Str}
    (h : extract_source_id_from_desc desc = some s) :
    s.length = 22 ∧ s.all isMarkerChar = true := by
  induction desc with
  | nil => cases h
  | cons c rest ih =>
    rw [extract_source_id_from_desc] at h
    cases hm : matchTagAt (c :: rest) with
    | none =>
      rw [hm] at h
      exact ih h
    | some s' =>
      rw [hm] at h
      have hs : s' = s := by
        simpa using h
      subst hs
      rw [matchTagAt] at hm
      by_cases hp : DESC_TAG_PREFIX.isPrefixOf (c :: rest) = true
      · rw [if_pos hp] at hm
        set rest' := (c :: rest).drop DESC_TAG_PREFIX.length with hrest
        by_cases hg : (22 ≤ rest'.length && (rest'.take 22).all isMarkerChar) = true
        · rw [if_pos hg] at hm
          have hs' : rest'.take 22 = s' := by
            simpa using hm
          simp only [Bool.and_eq_true, decide_eq_true_eq] at hg
          constructor
          · rw [← hs']
            simp [List.length_take]
            omega
          · rw [← hs']
            exact hg.2
        · rw [if_neg hg] at hm
          cases hm
      · rw [if_neg hp] at hm
        cases hm

theorem clone_entry_eq_some {source_id : Str} {pl : Playlist} {pid : Str} :
    clone_entry source_id pl = some pid ↔
      pl.pid = some pid ∧ pid ≠ [] ∧
        extract_source_id_from_desc (pl.description.getD []) = some source_id := by
  constructor
  · intro h
    cases hp : pl.pid with
    | none => simp [clone_entry, hp] at h
    | some q =>
      simp only [clone_entry, hp] at h
      by_cases hq : q == ([] : Str)
      · rw [if_pos hq] at h; cases h
      · rw [if_neg hq] at h
        by_cases he : extract_source_id_from_desc (pl.description.getD []) ==
            some source_id
        · rw [if_pos he] at h
          have hqp : q = pid := by simpa using h
          subst hqp
          refine ⟨rfl, ?_, ?_⟩
          · simpa using hq
          · simpa using he
        · rw [if_neg he] at h; cases h
  · rintro ⟨h1, h2, h3⟩
    rw [clone_entry, h1]
    have hq : (pid == ([] : Str)) = false := by
      simpa using h2
    have he : (extract_source_id_from_desc (pl.description.getD []) ==
        some source_id) = true := by
      simpa using h3
    simp [hq, he]

theorem find_clones_mem {lib : List Playlist} {source_id pid : Str} :
    pid ∈ find_clones lib source_id ↔
      ∃ pl ∈ lib, pl.pid = some pid ∧ pid ≠ [] ∧
        extract_source_id_from_desc (pl.description.getD []) = some source_id := by
  simp only [find_clones, List.mem_filterMap]
  constructor
  · rintro ⟨pl, hpl, h⟩
    exact ⟨pl, hpl, clone_entry_eq_some.mp h⟩
  · rintro ⟨pl, hpl, h⟩
    exact ⟨pl, hpl, clone_entry_eq_some.mpr h⟩

/-! ### Batching helper lemmas -/

theorem add_batches_eq_chunk100 (l : List Str) : add_batches l = chunk100 l := by
  have H : ∀ k s, l.length - s ≤ k →
      (pyRange100 s l.length).map (fun i => (l.drop i).take 100) =
        chunk100 (l.drop s) := by
    intro k
    induction k with
    | zero =>
      intro s hs
      have hle : l.length ≤ s := by omega
      have h1 : pyRange100 s l.length = [] := by
        rw [pyRange100]
        simp [Nat.not_lt_of_le hle]
      have h2 : l.drop s = [] := List.drop_eq_nil_of_le hle
      rw [h1, h2, chunk100]
      simp
    | succ k ih =>
      intro s hs
      by_cases hlt : s < l.length
      · have h1 : pyRange100 s l.length = s :: pyRange100 (s + 100) l.length := by
          rw [pyRange100]
          simp [hlt]
        have hne : l.drop s ≠ [] := by
          intro hnil
          have := List.drop_eq_nil_iff.mp hnil
          omega
        have h2 : chunk100 (l.drop s) =
            (l.drop s).take 100 :: chunk100 ((l.drop s).drop 100) := by
          rw [chunk100]
          simp [hne]
        have h3 : (l.drop s).drop 100 = l.drop (s + 100) := by
          rw [List.drop_drop]
        rw [h1, h2, h3, List.map_cons]
        congr 1
        exact ih (s + 100) (by omega)
      · have h1 : pyRange100 s l.length = [] := by
          rw [pyRange100]
          simp [hlt]
        have h2 : l.drop s = [] := List.drop_eq_nil_of_le (by omega)
        rw [h1, h2, chunk100]
        simp
  have h0 := H l.length 0 (by omega)
  simpa [add_batches] using h0

theorem chunk100_join (l : List Str) : (chunk100 l).flatten = l := by
  have H : ∀ k (l' : List Str), l'.length ≤ k → (chunk100 l').flatten = l' := by
    intro k
    induction k with
    | zero =>
      intro l' h
      have : l' = [] := List.eq_nil_of_length_eq_zero (by omega)
      subst this
      rw [chunk100]
      simp
    | succ k ih =>
      intro l' h
      by_cases hl : l' = []
      · subst hl
        rw [chunk100]
        simp
      · rw [chunk100]
        simp only [hl, dif_neg]
        have hlen : (l'.drop 100).length ≤ k := by
          have h1 : l' ≠ [] := hl
          have h2 : 1 ≤ l'.length := by
            cases l' with
            | nil => exact absurd rfl h1
            | cons x xs => simp
          simp [List.length_drop]
          omega
        simp [ih (l'.drop 100) hlen]
  exact H l.length l le_rfl

theorem chunk100_length (l : List Str) : (chunk100 l).length = (l.length + 99) / 100 := by
  have H : ∀ k (l' : List Str), l'.length ≤ k →
      (chunk100 l').length = (l'.length + 99) / 100 := by
    intro k
    induction k with
    | zero =>
      intro l' h
      have : l' = [] := List.eq_nil_of_length_eq_zero (by omega)
      subst this
      rw [chunk100]
      simp
    | succ k ih =>
      intro l' h
      by_cases hl : l' = []
      · subst hl
        rw [chunk100]
        simp
      · have hstep : chunk100 l' = l'.take 100 :: chunk100 (l'.drop 100) := by
          rw [chunk100]
          simp [hl]
        have h2 : 1 ≤ l'.length := by
          cases l' with
          | nil => exact absurd rfl hl
          | cons x xs => simp
        have hlen : (l'.drop 100).length ≤ k := by
          simp [List.length_drop]
          omega
        have hih := ih (l'.drop 100) hlen
        rw [hstep, List.length_cons, hih, List.length_drop]
        omega
  exact H l.length l le_rfl

theorem chunk100_sizes (l : List Str) : ∀ b ∈ chunk100 l, b.length ≤ 100 := by
  have H : ∀ k (l' : List Str), l'.length ≤ k → ∀ b ∈ chunk100 l', b.length ≤ 100 := by
    intro k
    induction k with
    | zero =>
      intro l' h b hb
      have : l' = [] := List.eq_nil_of_length_eq_zero (by omega)
      subst this
      rw [chunk100] at hb
      simp at hb
    | succ k ih =>
      intro l' h b hb
      by_cases hl : l' = []
      · subst hl
        rw [chunk100] at hb
        simp at hb
      · have hstep : chunk100 l' = l'.take 100 :: chunk100 (l'.drop 100) := by
          rw [chunk100]
          simp [hl]
        rw [hstep] at hb
        rcases List.mem_cons.mp hb with hb' | hb'
        · subst hb'
          simp [List.length_take]
        · have h2 : 1 ≤ l'.length := by
            cases l' with
            | nil => exact absurd rfl hl
            | cons x xs => simp
          have hlen : (l'.drop 100).length ≤ k := by
            simp [List.length_drop]
            omega
          exact ih (l'.drop 100) hlen b hb'
  exact H l.length l le_rfl

theorem extract_none_of_no_match {desc : Str}
    (h : ∀ i, matchTagAt (desc.drop i) = none) :
    extract_source_id_from_desc desc = none := by
  induction desc with
  | nil => rfl
  | cons c rest ih =>
    have h0 : matchTagAt (c :: rest) = none := by
      have := h 0
      simpa using this
    rw [extract_source_id_from_desc, h0]
    exact ih (fun i => by simpa using h (i + 1))

theorem matchTagAt_some_decomp {xs s : Str} (h : matchTagAt xs = some s) :
    ∃ tail, xs = (DESC_TAG_PREFIX ++ s) ++ tail := by
  rw [matchTagAt] at h
  by_cases hp : DESC_TAG_PREFIX.isPrefixOf xs = true
  · rw [if_pos hp] at h
    by_cases hg : (22 ≤ (xs.drop DESC_TAG_PREFIX.length).length &&
        ((xs.drop DESC_TAG_PREFIX.length).take 22).all isMarkerChar) = true
    · rw [if_pos hg] at h
      have hs : (xs.drop DESC_TAG_PREFIX.length).take 22 = s := by simpa using h
      obtain ⟨t2, ht2⟩ := List.isPrefixOf_iff_prefix.mp hp
      have hrest : xs.drop DESC_TAG_PREFIX.length = t2 := by
        rw [← ht2]
        exact List.drop_left _ _
      rw [hrest] at hs
      refine ⟨t2.drop 22, ?_⟩
      rw [← ht2, ← hs, List.append_assoc, List.take_append_drop]
    · rw [if_neg hg] at h
      cases h
  · rw [if_neg hp] at h
    cases h

theorem extract_contains {desc s : Str}
    (h : extract_source_id_from_desc desc = some s) :
    containsSub (DESC_TAG_PREFIX ++ s) desc = true := by
  induction desc with
  | nil => cases h
  | cons c rest ih =>
    rw [extract_source_id_from_desc] at h
    cases hm : matchTagAt (c :: rest) with
    | none =>
      rw [hm] at h
      exact containsSub_cons c (ih h)
    | some s' =>
      rw [hm] at h
      have hs : s' = s := by simpa using h
      subst hs
      obtain ⟨tail, htail⟩ := matchTagAt_some_decomp hm
      rw [htail]
      have := @containsSub_construct ([] : Str) tail (DESC_TAG_PREFIX ++ s')
      simpa using this

/-! ### Track-fetch helper lemmas -/

theorem page_track_uris_eq (items : List PlaylistItem) :
    page_track_uris items = items.filterMap playableUri := by
  induction items with
  | nil => rfl
  | cons item rest ih =>
    rw [List.filterMap_cons]
    cases ht : item.track with
    | none => simp [page_track_uris, playableUri, ht, ih]
    | some t =>
      cases hu : t.uri with
      | none => simp [page_track_uris, playableUri, ht, hu, ih]
      | some uri =>
        by_cases hnil : uri = []
        · subst hnil
          simp [page_track_uris, playableUri, ht, hu, ih]
        · by_cases hpre : TRACK_URI_PREFIX.isPrefixOf uri = true
          · simp [page_track_uris, playableUri, ht, hu, hnil, hpre, ih]
          · simp only [Bool.not_eq_true] at hpre
            simp [page_track_uris, playableUri, ht, hu, hnil, hpre, ih]

theorem playableUri_some {item : PlaylistItem} {u : Str}
    (h : playableUri item = some u) : TRACK_URI_PREFIX.isPrefixOf u = true := by
  cases ht : item.track with
  | none => simp [playableUri, ht] at h
  | some t =>
    cases hu : t.uri with
    | none => simp [playableUri, ht, hu] at h
    | some uri =>
      cases hc : (uri != ([] : Str) && TRACK_URI_PREFIX.isPrefixOf uri) with
      | false => simp [playableUri, ht, hu, hc] at h
      | true =>
        have huri : uri = u := by
          have h' := h
          simp [playableUri, ht, hu, hc] at h'
          exact h'
        subst huri
        have hc' := hc
        simp only [Bool.and_eq_true] at hc'
        exact hc'.2

/-! ### Trace helper lemmas -/

theorem mem_deletion_ne_source {lib : List Playlist} {source_id pid : Str}
    (h : pid ∈ delete_old_clones_keep_newest lib source_id) : pid ≠ source_id := by
  have h2 := (List.mem_filter.mp h).2
  simpa using h2

theorem mem_deletion_mem_find {lib : List Playlist} {source_id pid : Str}
    (h : pid ∈ delete_old_clones_keep_newest lib source_id) :
    pid ∈ find_clones lib source_id :=
  (List.mem_filter.mp h).1

theorem cover_run_shape {images : List CoverImage} {download : Str → List Nat}
    {new_id : Str} {cover_run : List Effect}
    (hcov : cover_run <+: copy_playlist_cover images download new_id) :
    ∀ e ∈ cover_run, ∃ p, e = Effect.uploadCover new_id p := by
  intro e he
  have hmem : e ∈ copy_playlist_cover images download new_id := hcov.subset he
  cases images with
  | nil => simp [copy_playlist_cover] at hmem
  | cons img rest =>
    simp [copy_playlist_cover] at hmem
    exact ⟨_, hmem⟩

theorem dropWhile_eq_self_of {p : Char → Bool} {xs : Str}
    (h : ∀ c ∈ xs, p c = false) : xs.dropWhile p = xs := by
  cases xs with
  | nil => rfl
  | cons x xs => simp [List.dropWhile, h x (List.mem_cons_self x xs)]

theorem pyStrip_eq_self {xs : Str} (h : ∀ c ∈ xs, c.isWhitespace = false) :
    pyStrip xs = xs := by
  unfold pyStrip
  rw [dropWhile_eq_self_of h]
  rw [dropWhile_eq_self_of (fun c hc => h c (List.mem_reverse.mp hc))]
  exact List.reverse_reverse xs

/-! ### Claim C10: shape of extracted IDs -/

/-- C10: every non-none value returned by the marker extractor is a string
of exactly 22 characters of the class `[A-Za-z0-9]`; consequently, for a
source whose ID is not of that shape, `find_clones` returns the empty set
on every library, so clones tagged with such an ID are invisible to the
clone locator on every run. -/
theorem marker_ids_are_22_alnum :
    (∀ desc s : Str, extract_source_id_from_desc desc = some s →
      s.length = 22 ∧ s.all isMarkerChar = true)
    ∧ ∀ (lib : List Playlist) (sid : Str),
        ¬ (sid.length = 22 ∧ sid.all isMarkerChar = true) →
        find_clones lib sid = [] := by
  constructor
  · intro desc s h
    exact extract_some_shape h
  · intro lib sid hsid
    cases hfc : find_clones lib sid with
    | nil => rfl
    | cons p ps =>
      exfalso
      have hp : p ∈ find_clones lib sid := by
        rw [hfc]
        exact List.mem_cons_self p ps
      rcases find_clones_mem.mp hp with ⟨pl, _, _, _, hex⟩
      exact hsid (extract_some_shape hex)

/-- Witness for C10 at a concrete input: the 3-character ID "abc" is not
of the marker shape, so a library holding a clone tagged for it yields an
empty locator result. -/
theorem marker_ids_are_22_alnum_witness :
    find_clones [⟨some "p1".toList, some (tag_payload "abc".toList)⟩] "abc".toList
      = [] :=
  marker_ids_are_22_alnum.2 _ _ (by decide)

/-! ### Claim C2: where the source-exclusion filter lives -/

/-- C2 counterexample: a library consisting of the source playlist itself,
whose description carries a marker naming its own ID: `find_clones`
returns the source's ID, so the locator itself does not exclude the
source playlist. -/
theorem find_clones_includes_source_cex :
    find_clones
      [⟨some "aaaabbbbccccdddd000011".toList,
        some (tag_payload "aaaabbbbccccdddd000011".toList)⟩]
      "aaaabbbbccccdddd000011".toList
      = ["aaaabbbbccccdddd000011".toList] := by decide

/-- C2 amended: the explicit ID-equality filter against the known source
ID is applied not inside the locator but in the deletion step
`delete_old_clones_keep_newest`, which removes exactly the source ID from
the located set; hence the deletion set never contains the source ID even
though `find_clones` may return it. -/
theorem source_filter_in_deletion_step (lib : List Playlist) (source_id : Str) :
    source_id ∉ delete_old_clones_keep_newest lib source_id
    ∧ ∀ pid, pid ∈ delete_old_clones_keep_newest lib source_id ↔
        pid ∈ find_clones lib source_id ∧ pid ≠ source_id := by
  constructor
  · intro h
    exact absurd rfl (mem_deletion_ne_source h)
  · intro pid
    simp [delete_old_clones_keep_newest, List.mem_filter]

/-- Witness for C2's amended statement at a concrete input: with the
source playlist self-tagged in the library, the deletion set still does
not contain the source ID. -/
theorem source_filter_in_deletion_step_witness :
    "aaaabbbbccccdddd000011".toList ∉
      delete_old_clones_keep_newest
        [⟨some "aaaabbbbccccdddd000011".toList,
          some (tag_payload "aaaabbbbccccdddd000011".toList)⟩]
        "aaaabbbbccccdddd000011".toList :=
  (source_filter_in_deletion_step _ _).1

/-! ### Claim C3: marker round-trip -/

/-- C3 counterexample: for the source ID "abc" (not 22 characters), the
payload written at creation time does not round-trip: extraction returns
none instead of recovering the ID. -/
theorem marker_roundtrip_cex :
    extract_source_id_from_desc (tag_payload "abc".toList) ≠ some ("abc".toList) := by
  decide

/-- C3 amended: the round trip holds for source IDs of exactly 22
characters of the class `[A-Za-z0-9]` (the shape of platform IDs): the
payload written at creation time extracts back to exactly that ID;
extraction still recovers it under leading and trailing noise provided
the leading noise does not itself contain an occurrence of the literal
`autoclone_source=` (otherwise the extractor may report the earlier
occurrence); and a field containing no position at which the marker
pattern matches extracts to none. -/
theorem marker_roundtrip (sid pre post : Str) (h22 : sid.length = 22)
    (hal : sid.all isMarkerChar = true)
    (hpre : ∀ i ≤ pre.length,
      DESC_TAG_PREFIX.isPrefixOf ((pre ++ tag_payload sid ++ post).drop i) = false) :
    extract_source_id_from_desc (tag_payload sid) = some sid
    ∧ extract_source_id_from_desc (pre ++ tag_payload sid ++ post) = some sid
    ∧ ∀ desc : Str, (∀ i, matchTagAt (desc.drop i) = none) →
        extract_source_id_from_desc desc = none := by
  refine ⟨?_, extract_of_marker h22 hal hpre, fun desc h => extract_none_of_no_match h⟩
  have h0 : ∀ i ≤ ([] : Str).length,
      DESC_TAG_PREFIX.isPrefixOf ((([] : Str) ++ tag_payload sid ++ []).drop i) = false := by
    intro i hi
    have hz : i = 0 := Nat.le_zero.mp hi
    subst hz
    have hd : DESC_TAG_PREFIX = 'a' :: "utoclone_source=".toList := by decide
    rw [hd]
    simp [tag_payload, List.isPrefixOf, ZERO_WIDTH_SPACE]
  have h : extract_source_id_from_desc (([] : Str) ++ tag_payload sid ++ []) = some sid :=
    extract_of_marker h22 hal h0
  simpa using h

/-- Witness for C3's amended statement at a concrete input: a 22-character
ID surrounded by noise on both sides still extracts. -/
theorem marker_roundtrip_witness :
    extract_source_id_from_desc
      ("my list ".toList ++ tag_payload "aaaabbbbccccdddd000011".toList ++ " (auto)".toList)
      = some ("aaaabbbbccccdddd000011".toList) :=
  (marker_roundtrip "aaaabbbbccccdddd000011".toList "my list ".toList " (auto)".toList
    (by decide) (by decide) (by decide)).2.1

/-! ### Claim C9: track fetch keeps exactly the playable track URIs -/

/-- C9: the track-fetch step returns, in source order, exactly the URIs of
items that resolve to a playable track reference: the result is the
in-order projection `playableUri` of the concatenated pages, and every
returned URI carries the `spotify:track:` scheme; items with a missing
track object, a missing URI, or a URI of another kind contribute nothing
and never abort the scan (the function is total on every page list). -/
theorem track_fetch_playable (pages : List (List PlaylistItem)) :
    get_all_track_uris pages = pages.flatten.filterMap playableUri
    ∧ ∀ u ∈ get_all_track_uris pages, TRACK_URI_PREFIX.isPrefixOf u = true := by
  have heq : get_all_track_uris pages = pages.flatten.filterMap playableUri := by
    induction pages with
    | nil => rfl
    | cons page rest ih =>
      show page_track_uris page ++ get_all_track_uris rest = _
      rw [List.flatten_cons, List.filterMap_append, page_track_uris_eq, ih]
  refine ⟨heq, ?_⟩
  intro u hu
  rw [heq] at hu
  rcases List.mem_filterMap.mp hu with ⟨item, _, hitem⟩
  exact playableUri_some hitem

/-- Witness for C9 at a concrete input: a page list with a playable track,
a missing track object, an episode URI and a missing URI yields exactly
the playable URI, which carries the scheme. -/
theorem track_fetch_playable_witness :
    TRACK_URI_PREFIX.isPrefixOf ("spotify:track:4uLU6hMC".toList) = true :=
  (track_fetch_playable
    [[⟨some ⟨some "spotify:track:4uLU6hMC".toList⟩⟩, ⟨none⟩,
      ⟨some ⟨some "spotify:episode:77".toList⟩⟩],
     [⟨some ⟨none⟩⟩]]).2 _ (by decide)

/-! ### Claim C7: populate batching -/

/-- C7: for a track sequence of length n the populate loop issues exactly
ceil(n/100) append calls, each batch holds at most 100 items, and the
concatenation of the batches in call order is the original sequence. -/
theorem populate_batching (track_uris : List Str) :
    (add_batches track_uris).length = (track_uris.length + 99) / 100
    ∧ (∀ b ∈ add_batches track_uris, b.length ≤ 100)
    ∧ (add_batches track_uris).flatten = track_uris := by
  rw [add_batches_eq_chunk100]
  exact ⟨chunk100_length _, chunk100_sizes _, chunk100_join _⟩

/-- Witness for C7 at a concrete input: 250 items are appended in exactly
3 calls whose concatenation is the original sequence. -/
theorem populate_batching_witness :
    (add_batches (List.replicate 250 ([] : Str))).length = 3
    ∧ (add_batches (List.replicate 250 ([] : Str))).flatten =
        List.replicate 250 ([] : Str) := by
  refine ⟨?_, (populate_batching (List.replicate 250 ([] : Str))).2.2⟩
  rw [(populate_batching (List.replicate 250 ([] : Str))).1]
  simp

/-! ### Claim C4: what the locator returns -/

/-- C4 counterexample: a description that contains a well-formed marker
naming the queried ID X (22 b's) preceded by a marker naming another ID
(22 a's): the marker for X is present as a substring, yet `find_clones`
for X returns the empty set, because the extractor reports only the
leftmost marker. -/
theorem find_clones_not_all_markers_cex :
    containsSub (DESC_TAG_PREFIX ++ "bbbbbbbbbbbbbbbbbbbbbb".toList)
      (DESC_TAG_PREFIX ++ "aaaaaaaaaaaaaaaaaaaaaa".toList
        ++ DESC_TAG_PREFIX ++ "bbbbbbbbbbbbbbbbbbbbbb".toList) = true
    ∧ find_clones
        [⟨some "p1".toList,
          some (DESC_TAG_PREFIX ++ "aaaaaaaaaaaaaaaaaaaaaa".toList
            ++ DESC_TAG_PREFIX ++ "bbbbbbbbbbbbbbbbbbbbbb".toList)⟩]
        "bbbbbbbbbbbbbbbbbbbbbb".toList = [] := by decide

/-- C4 amended: `find_clones X` returns exactly the playlists (with a
non-empty ID field) whose description EXTRACTS to X, i.e. whose leftmost
well-formed marker names X; every returned playlist's description does
contain the literal marker for X as a substring; a playlist whose leftmost
marker names a different ID, or whose description holds a malformed,
partial or absent marker (including an empty or missing description), is
excluded without any error, the locator being a total function. -/
theorem find_clones_exact (lib : List Playlist) (X : Str) :
    (∀ pid, pid ∈ find_clones lib X ↔
      ∃ pl ∈ lib, pl.pid = some pid ∧ pid ≠ [] ∧
        extract_source_id_from_desc (pl.description.getD []) = some X)
    ∧ ∀ pid ∈ find_clones lib X,
        ∃ pl ∈ lib, pl.pid = some pid ∧
          containsSub (DESC_TAG_PREFIX ++ X) (pl.description.getD []) = true := by
  constructor
  · intro pid
    exact find_clones_mem
  · intro pid hpid
    rcases find_clones_mem.mp hpid with ⟨pl, hmem, hid, _, hex⟩
    exact ⟨pl, hmem, hid, extract_contains hex⟩

/-- Witness for C4's amended statement at a concrete input: in a library
with two X-tagged clones and one Y-tagged clone, an X-tagged playlist is
returned by the locator for X. -/
theorem find_clones_exact_witness :
    "p1".toList ∈ find_clones
      [⟨some "p1".toList, some (tag_payload "bbbbbbbbbbbbbbbbbbbbbb".toList)⟩,
       ⟨some "p2".toList, some (tag_payload "bbbbbbbbbbbbbbbbbbbbbb".toList)⟩,
       ⟨some "p3".toList, some (tag_payload "aaaaaaaaaaaaaaaaaaaaaa".toList)⟩]
      "bbbbbbbbbbbbbbbbbbbbbb".toList :=
  ((find_clones_exact _ _).1 _).mpr
    ⟨⟨some "p1".toList, some (tag_payload "bbbbbbbbbbbbbbbbbbbbbb".toList)⟩,
      by decide, rfl, by decide, by decide⟩

/-! ### Claim C6: cover copy and size -/

/-- C6 counterexample: with a downloaded payload of 300000 bytes the cover
step does not fail locally before uploading: it issues the upload call
carrying the base64 encoding of the oversized payload. -/
theorem cover_no_local_size_check_cex :
    Effect.uploadCover "newpl".toList (b64encode (List.replicate 300000 0)) ∈
      copy_playlist_cover [⟨"https-img-url".toList⟩]
        (fun _ => List.replicate 300000 0) "newpl".toList :=
  List.mem_singleton.mpr rfl

/-- C6 amended: `copy_playlist_cover` performs no local size check:
whenever the source has any cover image it base64-encodes whatever
payload was downloaded, of any size, and issues the upload call; the
cover step is wrapped in try/except in `main`, so for every outcome of
the cover step the populate calls still form the tail of the run's
trace (the run is not aborted). -/
theorem cover_upload_best_effort (images : List CoverImage)
    (download : Str → List Nat) (target : Str) (himg : images ≠ []) :
    copy_playlist_cover images download target =
      [Effect.uploadCover target (b64encode (download (images.headD ⟨[]⟩).url))]
    ∧ ∀ (user_id source_id source_name new_id : Str) (lib : List Playlist)
        (pages : List (List PlaylistItem)) (cover_run : List Effect),
        (add_batches (get_all_track_uris pages)).map (fun b => Effect.addItems new_id b)
          <:+ main_trace user_id source_id source_name lib pages new_id cover_run := by
  constructor
  · cases images with
    | nil => exact absurd rfl himg
    | cons img rest => rfl
  · intro user_id source_id source_name new_id lib pages cover_run
    exact ⟨_, rfl⟩

/-- Witness for C6's amended statement at a concrete input: a 300000-byte
payload is uploaded as-is, and with an empty cover outcome (a failed cover
step) the populate calls still close the trace. -/
theorem cover_upload_best_effort_witness :
    copy_playlist_cover [⟨"https-img-url".toList⟩]
        (fun _ => List.replicate 300000 0) "newpl".toList =
      [Effect.uploadCover "newpl".toList (b64encode (List.replicate 300000 0))] :=
  (cover_upload_best_effort [⟨"https-img-url".toList⟩]
    (fun _ => List.replicate 300000 0) "newpl".toList (by decide)).1

/-! ### Claim C1: the source playlist is never mutated -/

/-- C1: a refresh run never mutates the source playlist: no unfollow call
of the run names the source ID (even when the source's own description
carries a matching marker — the deletion step filters the source ID out),
and no item-append or cover-upload call targets the source ID, given that
the freshly created playlist's ID differs from the source's and the cover
step issues (a prefix of) the calls of `copy_playlist_cover` aimed at the
new playlist. -/
theorem source_never_mutated
    (user_id source_id source_name new_id : Str) (lib : List Playlist)
    (pages : List (List PlaylistItem)) (images : List CoverImage)
    (download : Str → List Nat) (cover_run : List Effect)
    (hfresh : new_id ≠ source_id)
    (hcov : cover_run <+: copy_playlist_cover images download new_id) :
    (∀ pid, Effect.unfollow pid ∈
        main_trace user_id source_id source_name lib pages new_id cover_run →
        pid ≠ source_id)
    ∧ (∀ uris, Effect.addItems source_id uris ∉
        main_trace user_id source_id source_name lib pages new_id cover_run)
    ∧ ∀ payload, Effect.uploadCover source_id payload ∉
        main_trace user_id source_id source_name lib pages new_id cover_run := by
  refine ⟨?_, ?_, ?_⟩
  · intro pid hmem
    rw [main_trace] at hmem
    rcases List.mem_append.mp hmem with h1 | h4
    · rcases List.mem_append.mp h1 with h2 | h3
      · rcases List.mem_append.mp h2 with hD | hc
        · rcases List.mem_map.mp hD with ⟨a, haD, hae⟩
          have ha : a = pid := by simpa using hae
          subst ha
          exact mem_deletion_ne_source haD
        · have hc2 := List.mem_singleton.mp hc
          simp at hc2
      · rcases cover_run_shape hcov _ h3 with ⟨p, hp⟩
        simp at hp
    · rcases List.mem_map.mp h4 with ⟨b, hb, he⟩
      simp at he
  · intro uris hmem
    rw [main_trace] at hmem
    rcases List.mem_append.mp hmem with h1 | h4
    · rcases List.mem_append.mp h1 with h2 | h3
      · rcases List.mem_append.mp h2 with hD | hc
        · rcases List.mem_map.mp hD with ⟨a, haD, hae⟩
          simp at hae
        · have hc2 := List.mem_singleton.mp hc
          simp at hc2
      · rcases cover_run_shape hcov _ h3 with ⟨p, hp⟩
        simp at hp
    · rcases List.mem_map.mp h4 with ⟨b, hb, he⟩
      have : new_id = source_id := by
        have he2 := he
        simp at he2
        exact he2.1
      exact hfresh this
  · intro payload hmem
    rw [main_trace] at hmem
    rcases List.mem_append.mp hmem with h1 | h4
    · rcases List.mem_append.mp h1 with h2 | h3
      · rcases List.mem_append.mp h2 with hD | hc
        · rcases List.mem_map.mp hD with ⟨a, haD, hae⟩
          simp at hae
        · have hc2 := List.mem_singleton.mp hc
          simp at hc2
      · rcases cover_run_shape hcov _ h3 with ⟨p, hp⟩
        have : new_id = source_id := by
          have hp2 := hp
          simp at hp2
          exact hp2.1.symm
        exact hfresh this
    · rcases List.mem_map.mp h4 with ⟨b, hb, he⟩
      simp at he

/-- Witness for C1 at a concrete input: a run over a library in which the
source playlist itself carries a matching marker; no append call of the
run targets the source. -/
theorem source_never_mutated_witness :
    Effect.addItems "ssssssssssssssssssssss".toList [] ∉
      main_trace "user1".toList "ssssssssssssssssssssss".toList "Road Trip".toList
        [⟨some "ssssssssssssssssssssss".toList,
          some (tag_payload "ssssssssssssssssssssss".toList)⟩,
         ⟨some "c1".toList, some (tag_payload "ssssssssssssssssssssss".toList)⟩]
        [[⟨some ⟨some "spotify:track:t1".toList⟩⟩]]
        "c3".toList
        (copy_playlist_cover [⟨"img".toList⟩] (fun _ => [1, 2]) "c3".toList) :=
  (source_never_mutated "user1".toList "ssssssssssssssssssssss".toList
    "Road Trip".toList "c3".toList
    [⟨some "ssssssssssssssssssssss".toList,
      some (tag_payload "ssssssssssssssssssssss".toList)⟩,
     ⟨some "c1".toList, some (tag_payload "ssssssssssssssssssssss".toList)⟩]
    [[⟨some ⟨some "spotify:track:t1".toList⟩⟩]]
    [⟨"img".toList⟩] (fun _ => [1, 2])
    (copy_playlist_cover [⟨"img".toList⟩] (fun _ => [1, 2]) "c3".toList)
    (by decide) (List.prefix_refl _)).2.1 []

/-! ### Claim C5: delete-all-before-create -/

/-- C5: the retention behaviour is the delete-all-before-create variant:
every located clone other than the source is in the deletion set; the
run's trace is exactly the unfollows of the deletion set followed by the
creation call and then a deletion-free remainder; and the ID returned by
the creation (absent from the scanned library) is never in that same
run's deletion set — so a run over two existing tagged clones deletes
both before the third is created. -/
theorem delete_all_before_create
    (user_id source_id source_name new_id : Str) (lib : List Playlist)
    (pages : List (List PlaylistItem)) (images : List CoverImage)
    (download : Str → List Nat) (cover_run : List Effect)
    (hfresh : ∀ pl ∈ lib, pl.pid ≠ some new_id)
    (hcov : cover_run <+: copy_playlist_cover images download new_id) :
    (∀ pid ∈ find_clones lib source_id, pid ≠ source_id →
      pid ∈ delete_old_clones_keep_newest lib source_id)
    ∧ (∃ rest, main_trace user_id source_id source_name lib pages new_id cover_run =
        (delete_old_clones_keep_newest lib source_id).map Effect.unfollow
          ++ (Effect.createPlaylist user_id source_name false (tag_payload source_id)
              :: rest)
        ∧ ∀ e ∈ rest, ∀ pid, e ≠ Effect.unfollow pid)
    ∧ new_id ∉ delete_old_clones_keep_newest lib source_id := by
  refine ⟨?_, ⟨cover_run ++ (add_batches (get_all_track_uris pages)).map
      (fun b => Effect.addItems new_id b), ?_, ?_⟩, ?_⟩
  · intro pid hp hne
    refine List.mem_filter.mpr ⟨hp, ?_⟩
    simpa using hne
  · rw [main_trace]
    simp [List.append_assoc]
  · intro e he pid
    rcases List.mem_append.mp he with h | h
    · rcases cover_run_shape hcov _ h with ⟨p, hp⟩
      subst hp
      simp
    · rcases List.mem_map.mp h with ⟨b, hb, he2⟩
      rw [← he2]
      simp
  · intro h
    have hf := mem_deletion_mem_find h
    rcases find_clones_mem.mp hf with ⟨pl, hmem, hpid, _, _⟩
    exact hfresh pl hmem hpid

/-- Witness for C5 at a concrete input: a run whose library scan finds two
existing tagged clones puts both in the deletion set, and the freshly
created ID is not in it. -/
theorem delete_all_before_create_witness :
    "c1".toList ∈ delete_old_clones_keep_newest
      [⟨some "c1".toList, some (tag_payload "ssssssssssssssssssssss".toList)⟩,
       ⟨some "c2".toList, some (tag_payload "ssssssssssssssssssssss".toList)⟩]
      "ssssssssssssssssssssss".toList
    ∧ "c2".toList ∈ delete_old_clones_keep_newest
      [⟨some "c1".toList, some (tag_payload "ssssssssssssssssssssss".toList)⟩,
       ⟨some "c2".toList, some (tag_payload "ssssssssssssssssssssss".toList)⟩]
      "ssssssssssssssssssssss".toList
    ∧ "c3".toList ∉ delete_old_clones_keep_newest
      [⟨some "c1".toList, some (tag_payload "ssssssssssssssssssssss".toList)⟩,
       ⟨some "c2".toList, some (tag_payload "ssssssssssssssssssssss".toList)⟩]
      "ssssssssssssssssssssss".toList :=
  ⟨(delete_all_before_create "user1".toList "ssssssssssssssssssssss".toList
      "Road Trip".toList "c3".toList _ [] [] (fun _ => []) []
      (by decide) List.nil_prefix).1 _ (by decide) (by decide),
   (delete_all_before_create "user1".toList "ssssssssssssssssssssss".toList
      "Road Trip".toList "c3".toList _ [] [] (fun _ => []) []
      (by decide) List.nil_prefix).1 _ (by decide) (by decide),
   (delete_all_before_create "user1".toList "ssssssssssssssssssssss".toList
      "Road Trip".toList "c3".toList _ [] [] (fun _ => []) []
      (by decide) List.nil_prefix).2.2⟩

/-! ### Claim C8: normalize accepts all three reference forms -/

theorem containsSub_construct' (pre post : Str) {sep : Str} :
    containsSub sep (pre ++ (sep ++ post)) = true := by
  have h := @containsSub_construct pre post sep
  rwa [List.append_assoc] at h

/-- The body of `normalize_playlist_id` with its let-bindings expanded. -/
theorem normalize_playlist_id_spec (value : Str) :
    normalize_playlist_id value =
      (if SPOTIFY_URI_PREFIX.isPrefixOf
          (if containsSub OPEN_HOST (pyStrip value) &&
              containsSub PLAYLIST_SEP (pyStrip value) then
            takeBeforeFirst ['/'] (takeBeforeFirst ['?']
              (pySplitGet1 PLAYLIST_SEP (pyStrip value)))
          else pyStrip value) then
        pySplitGet1 SPOTIFY_URI_PREFIX
          (if containsSub OPEN_HOST (pyStrip value) &&
              containsSub PLAYLIST_SEP (pyStrip value) then
            takeBeforeFirst ['/'] (takeBeforeFirst ['?']
              (pySplitGet1 PLAYLIST_SEP (pyStrip value)))
          else pyStrip value)
      else
        (if containsSub OPEN_HOST (pyStrip value) &&
            containsSub PLAYLIST_SEP (pyStrip value) then
          takeBeforeFirst ['/'] (takeBeforeFirst ['?']
            (pySplitGet1 PLAYLIST_SEP (pyStrip value)))
        else pyStrip value)) := rfl

/-- C8: for a playlist ID (non-empty, characters in `[A-Za-z0-9]` as
platform IDs are), `normalize_playlist_id` maps each of the three valid
reference forms — the raw bare ID, the web URL
`https://open.spotify.com/playlist/<id>` possibly followed by a query
string or trailing path segments, and the URI `spotify:playlist:<id>` —
to the identical bare ID. -/
theorem normalize_three_forms (id suffix : Str) (hne : id ≠ [])
    (hal : id.all isMarkerChar = true)
    (hsuf : suffix = [] ∨ (∃ q, suffix = '?' :: q) ∨ (∃ r, suffix = '/' :: r))
    (hsw : ∀ c ∈ suffix, c.isWhitespace = false) :
    normalize_playlist_id id = id
    ∧ normalize_playlist_id
        ("https://open.spotify.com/playlist/".toList ++ (id ++ suffix)) = id
    ∧ normalize_playlist_id (SPOTIFY_URI_PREFIX ++ id) = id := by
  have halid : ∀ c ∈ id, isMarkerChar c = true := fun c hc => List.all_eq_true.mp hal c hc
  have hid_ws : ∀ c ∈ id, c.isWhitespace = false :=
    fun c hc => markerChar_not_ws (halid c hc)
  have hid_ne : ∀ d : Char, isMarkerChar d = false → ∀ c ∈ id, c ≠ d :=
    fun d hd c hc => markerChar_ne d (halid c hc) hd
  have huripref : SPOTIFY_URI_PREFIX.isPrefixOf id = false :=
    not_isPrefixOf_of_missing ':' (by decide) (hid_ne ':' (by decide))
  refine ⟨?_, ?_, ?_⟩
  · -- bare ID
    have hcon : containsSub OPEN_HOST id = false :=
      containsSub_false '.' (by decide) (hid_ne '.' (by decide))
    rw [normalize_playlist_id_spec, pyStrip_eq_self hid_ws, hcon]
    simp only [Bool.false_and, Bool.false_eq_true, if_false]
    rw [huripref]
    simp only [Bool.false_eq_true, if_false]
  · -- web URL form
    have hconcU : ∀ c ∈ ("https://open.spotify.com/playlist/".toList : Str),
        c.isWhitespace = false := by decide
    have hwsU : ∀ c ∈ "https://open.spotify.com/playlist/".toList ++ (id ++ suffix),
        c.isWhitespace = false := by
      intro c hc
      rcases List.mem_append.mp hc with hc1 | hc2
      · exact hconcU c hc1
      · rcases List.mem_append.mp hc2 with hc3 | hc4
        · exact hid_ws c hc3
        · exact hsw c hc4
    have hEq1 : "https://open.spotify.com/playlist/".toList ++ (id ++ suffix) =
        "https://".toList ++ (OPEN_HOST ++ (PLAYLIST_SEP ++ (id ++ suffix))) := by
      rw [show ("https://open.spotify.com/playlist/".toList : Str) =
          "https://".toList ++ (OPEN_HOST ++ PLAYLIST_SEP) from by decide]
      simp [List.append_assoc]
    have hEq2 : "https://open.spotify.com/playlist/".toList ++ (id ++ suffix) =
        "https://open.spotify.com".toList ++ (PLAYLIST_SEP ++ (id ++ suffix)) := by
      rw [show ("https://open.spotify.com/playlist/".toList : Str) =
          "https://open.spotify.com".toList ++ PLAYLIST_SEP from by decide]
      simp [List.append_assoc]
    have hcon1 : containsSub OPEN_HOST
        ("https://open.spotify.com/playlist/".toList ++ (id ++ suffix)) = true := by
      rw [hEq1]
      exact containsSub_construct' _ _
    have hcon2 : containsSub PLAYLIST_SEP
        ("https://open.spotify.com/playlist/".toList ++ (id ++ suffix)) = true := by
      rw [hEq2]
      exact containsSub_construct' _ _
    have hafter : afterFirst PLAYLIST_SEP
        ("https://open.spotify.com/playlist/".toList ++ (id ++ suffix)) =
        id ++ suffix := by
      rw [hEq2]
      exact afterFirst_boundary (by decide) _ _ (by decide)
    have ht1 : takeBeforeFirst PLAYLIST_SEP suffix = []
        ∨ (∃ u, takeBeforeFirst PLAYLIST_SEP suffix = '?' :: u)
        ∨ (∃ u, takeBeforeFirst PLAYLIST_SEP suffix = '/' :: u) := by
      rcases hsuf with h | ⟨q, h⟩ | ⟨r, h⟩ <;> subst h
      · left
        rfl
      · have hp : PLAYLIST_SEP.isPrefixOf ('?' :: q) = false := by
          rw [show (PLAYLIST_SEP : Str) = '/' :: "playlist/".toList from by decide]
          simp [List.isPrefixOf]
        right
        left
        exact ⟨takeBeforeFirst PLAYLIST_SEP q, by simp [takeBeforeFirst, hp]⟩
      · by_cases hp : PLAYLIST_SEP.isPrefixOf ('/' :: r) = true
        · left
          simp [takeBeforeFirst, hp]
        · right
          right
          simp only [Bool.not_eq_true] at hp
          exact ⟨takeBeforeFirst PLAYLIST_SEP r, by simp [takeBeforeFirst, hp]⟩
    have hsplitv : pySplitGet1 PLAYLIST_SEP
        ("https://open.spotify.com/playlist/".toList ++ (id ++ suffix)) =
        id ++ takeBeforeFirst PLAYLIST_SEP suffix := by
      rw [pySplitGet1, hafter]
      rw [show (PLAYLIST_SEP : Str) = '/' :: "playlist/".toList from by decide]
      exact takeBeforeFirst_append (hid_ne '/' (by decide))
    have hv2 : takeBeforeFirst ['/'] (takeBeforeFirst ['?'] (pySplitGet1 PLAYLIST_SEP
        ("https://open.spotify.com/playlist/".toList ++ (id ++ suffix)))) = id := by
      rw [hsplitv]
      rw [takeBeforeFirst_append (hid_ne '?' (by decide))]
      rcases ht1 with h | ⟨u, h⟩ | ⟨u, h⟩ <;> rw [h]
      · rw [show takeBeforeFirst ['?'] ([] : Str) = [] from rfl]
        rw [takeBeforeFirst_append (hid_ne '/' (by decide))]
        simp [takeBeforeFirst]
      · have hp : (['?'] : Str).isPrefixOf ('?' :: u) = true := by
          simp [List.isPrefixOf]
        rw [show takeBeforeFirst ['?'] ('?' :: u) = [] from by
          simp [takeBeforeFirst, hp]]
        rw [takeBeforeFirst_append (hid_ne '/' (by decide))]
        simp [takeBeforeFirst]
      · have hp : (['?'] : Str).isPrefixOf ('/' :: u) = false := by
          simp [List.isPrefixOf]
        rw [show takeBeforeFirst ['?'] ('/' :: u) =
            '/' :: takeBeforeFirst ['?'] u from by simp [takeBeforeFirst, hp]]
        rw [takeBeforeFirst_append (hid_ne '/' (by decide))]
        have hr : (['/'] : Str).isPrefixOf ('/' :: takeBeforeFirst ['?'] u) = true := by
          simp [List.isPrefixOf]
        simp [takeBeforeFirst, hr]
    rw [normalize_playlist_id_spec, pyStrip_eq_self hwsU, hcon1, hcon2]
    simp only [Bool.and_self, eq_self_iff_true, if_true]
    rw [hv2, huripref]
    simp only [Bool.false_eq_true, if_false]
  · -- URI form
    have hconcV : ∀ c ∈ (SPOTIFY_URI_PREFIX : Str), c.isWhitespace = false := by decide
    have hconcV2 : ∀ c ∈ (SPOTIFY_URI_PREFIX : Str), c ≠ '.' := by decide
    have hwsV : ∀ c ∈ SPOTIFY_URI_PREFIX ++ id, c.isWhitespace = false := by
      intro c hc
      rcases List.mem_append.mp hc with hc1 | hc2
      · exact hconcV c hc1
      · exact hid_ws c hc2
    have hdotV : ∀ c ∈ SPOTIFY_URI_PREFIX ++ id, c ≠ '.' := by
      intro c hc
      rcases List.mem_append.mp hc with hc1 | hc2
      · exact hconcV2 c hc1
      · exact hid_ne '.' (by decide) c hc2
    have hconV : containsSub OPEN_HOST (SPOTIFY_URI_PREFIX ++ id) = false :=
      containsSub_false '.' (by decide) hdotV
    have hprefV : SPOTIFY_URI_PREFIX.isPrefixOf (SPOTIFY_URI_PREFIX ++ id) = true :=
      List.isPrefixOf_iff_prefix.mpr (List.prefix_append _ _)
    have hafterV : afterFirst SPOTIFY_URI_PREFIX (SPOTIFY_URI_PREFIX ++ id) = id :=
      afterFirst_self (by decide) id
    have htakeV : takeBeforeFirst SPOTIFY_URI_PREFIX id = id :=
      takeBeforeFirst_missing ':' (by decide) (hid_ne ':' (by decide))
    rw [normalize_playlist_id_spec, pyStrip_eq_self hwsV, hconV]
    simp only [Bool.false_and, Bool.false_eq_true, if_false]
    rw [hprefV]
    simp only [eq_self_iff_true, if_true]
    rw [pySplitGet1, hafterV, htakeV]

/-- Witness for C8 at a concrete input: a 22-character ID in URL form
carrying a query suffix normalizes to the bare ID. -/
theorem normalize_three_forms_witness :
    normalize_playlist_id
      ("https://open.spotify.com/playlist/".toList
        ++ ("aaaabbbbccccdddd000011".toList ++ "?si=x1".toList))
      = "aaaabbbbccccdddd000011".toList :=
  (normalize_three_forms "aaaabbbbccccdddd000011".toList "?si=x1".toList
    (by decide) (by decide)
    (Or.inr (Or.inl ⟨"si=x1".toList, by decide⟩))
    (by decide)).2.1
